import Mathlib

/-!
Verification of the Documentation-2-PDF scraper.

Shallow embedding of the discovery, rendering, TOC-synthesis and merge
pipeline found in `doc_scraper.py`, `playwright_scraper.py`,
`site_handlers/base_handler.py`, `site_handlers/react_native.py` and
`site_handlers/__init__.py`.  Pure string manipulation is translated
function by function; browser and PDF-library effects are modelled by
explicit oracle parameters and event traces.
-/

/-- Boolean test that `p` is a prefix of `s`, on the underlying character
lists.  Models Python `str.startswith`. -/
def strStarts (s p : String) : Bool := p.data.isPrefixOf s.data

/-- Boolean substring test, structural recursion over the haystack.
Models the Python expression `pat in s`. -/
def isInfixB (pat : List Char) : List Char → Bool
  | [] => pat.isEmpty
  | c :: rest => pat.isPrefixOf (c :: rest) || isInfixB pat rest

/-- String-level wrapper for `isInfixB`: `strContains s pat` models the
Python membership test `pat in s`. -/
def strContains (s pat : String) : Bool := isInfixB pat.data s.data

/-- Models `path.replace("/docs/", "")`: removes every non-overlapping
left-to-right occurrence of the six characters `/docs/`. -/
def removeDocsSub : List Char → List Char
  | '/' :: 'd' :: 'o' :: 'c' :: 's' :: '/' :: rest => removeDocsSub rest
  | c :: rest => c :: removeDocsSub rest
  | [] => []

/-- Models `str.replace("/", "_")`: every slash becomes an underscore. -/
def slashToUnderscore (s : List Char) : List Char :=
  s.map (fun c => if c = '/' then '_' else c)

/-- Models `str.strip("_")`: removes leading and trailing underscores. -/
def stripUnderscores (s : List Char) : List Char :=
  ((s.dropWhile (· = '_')).reverse.dropWhile (· = '_')).reverse

/-- ASCII reading of the regex class `\w` used by the source:
letters, digits and underscore. -/
def pyWordChar (c : Char) : Bool := c.isAlphanum || c == '_'

/-- Models `re.sub(r"[^\w\-_.]", "_", s)`: every character outside the
class becomes an underscore. -/
def subNonWord (s : List Char) : List Char :=
  s.map (fun c => if pyWordChar c || c == '-' || c == '.' then c else '_')

/-- Recursive worker for `re.sub(r"_+", "_", s)`; the Bool flag records
whether the previously emitted character was an underscore. -/
def collapseAux : Bool → List Char → List Char
  | _, [] => []
  | prevU, c :: rest =>
    if c = '_' then
      if prevU then collapseAux true rest else '_' :: collapseAux true rest
    else c :: collapseAux false rest

/-- Models `re.sub(r"_+", "_", s)`: collapses runs of underscores. -/
def collapseUnderscores (s : List Char) : List Char := collapseAux false s

/-- True when the character list contains two adjacent underscores. -/
def hasDoubleUnderscore : List Char → Bool
  | [] => false
  | [_] => false
  | c :: d :: rest => (c == '_' && d == '_') || hasDoubleUnderscore (d :: rest)

/-- Models the scheme/netloc scan of `urllib.parse.urlparse`: returns the
characters following the first `://`, when present. -/
def findScheme : List Char → Option (List Char)
  | ':' :: '/' :: '/' :: rest => some rest
  | _ :: rest => findScheme rest
  | [] => none

/-- Models `urllib.parse.urlparse(url).path` for the http(s) URLs the
scraper builds: strip scheme and netloc, cut at query or fragment. -/
def urlPath (url : String) : String :=
  let cs := match findScheme url.data with
    | some rest => rest.dropWhile (· != '/')
    | none => url.data
  ⟨cs.takeWhile (fun c => c != '?' && c != '#')⟩

/-- Models `f"{n:03d}"` for a natural number: decimal digits left-padded
with zeros to width three. -/
def pad3 (n : Nat) : String :=
  let s := toString n
  ⟨List.replicate (3 - s.length) '0' ++ s.data⟩

/-- Models Python `str.title()` (ASCII scope): a letter that follows a
non-letter is uppercased, other letters are lowercased. -/
def titleCaseAux : Bool → List Char → List Char
  | _, [] => []
  | prevAlpha, c :: rest =>
    (if c.isAlpha then (if prevAlpha then c.toLower else c.toUpper) else c)
      :: titleCaseAux c.isAlpha rest

/-- String-level wrapper for `titleCaseAux`. -/
def titleCase (s : String) : String := ⟨titleCaseAux false s.data⟩

/-- Base URL fixed in `ReactNativeHandler.__init__`. -/
def rnBaseUrl : String := "https://reactnative.dev"

/-- Models `urljoin(self.base_url, href)` as called by the source, which
only invokes it on hrefs starting with a slash; a protocol-relative
`//host/...` href keeps only the scheme of the base. -/
def resolveHref (href : String) : String :=
  if strStarts href "/" then
    if strStarts href "//" then "https:" ++ href else rnBaseUrl ++ href
  else href

/-- Slug computation shared by `PlaywrightDocScraper.generate_file_entry`
and `BaseSiteHandler.generate_file_entry`:
`urlparse(url).path.replace("/docs/", "").replace("/", "_").strip("_")`,
fallback `getting_started` when empty, then `re.sub(r"[^\w\-_.]", "_")`. -/
def pwSlug (url : String) : String :=
  let f := stripUnderscores (slashToUnderscore (removeDocsSub (urlPath url).data))
  let f := if f = [] then "getting_started".data else f
  ⟨subNonWord f⟩

/-- Slug computation of `ReactNativeHandler.generate_file_entry`: the
shared slug followed by the extra `re.sub(r"_+", "_")` collapsing step. -/
def rnSlug (url : String) : String := ⟨collapseUnderscores (pwSlug url).data⟩

/-- Fallback display title used when the link text is falsy:
`filename.replace("_", " ").title()`. -/
def fallbackTitle (filename : String) : String :=
  titleCase ⟨filename.data.map (fun c => if c = '_' then ' ' else c)⟩

example : rnSlug "https://reactnative.dev/docs/getting-started" = "getting-started" := by decide
example : pwSlug "https://reactnative.dev/docs/a %b" = "a__b" := by decide
example : rnSlug "https://reactnative.dev/docs/a %b" = "a_b" := by decide
example : pad3 7 = "007" := by decide
example : pad3 1234 = "1234" := by decide
example : strContains "/docs/x" "/docs/" = true := by decide
example : resolveHref "/docs/x" = "https://reactnative.dev/docs/x" := by decide
example : urlPath "https://reactnative.dev/docs/x?a=1" = "/docs/x" := by decide

/-! ## Navigation tree and discovery (ReactNativeHandler.get_all_doc_urls) -/

/-- One sidebar leaf anchor: its `href` attribute (None when absent) and
its text content. -/
structure NavLink where
  href : Option String
  text : String
deriving DecidableEq, Repr

/-- One top-level sidebar category: its display title and its leaf links
in DOM order. -/
structure NavSection where
  title : String
  links : List NavLink
deriving DecidableEq, Repr

/-- The dictionary built by `ReactNativeHandler.generate_file_entry`
(keys `title`, `url`, `section`, `pdf_filename`).  The numeric index that
Python embeds in `pdf_filename` is kept as an explicit extra field. -/
structure RNDoc where
  title : String
  url : String
  «section» : String
  pdf_filename : String
  index : Nat
deriving DecidableEq, Repr

/-- Mutable handler/loop state of `ReactNativeHandler.get_all_doc_urls`:
`self.visited_urls` (a set, modelled as a duplicate-free list, the code
reads only membership and size), `self.sections`, and the local
`doc_metadata` accumulator. -/
structure RNState where
  visited_urls : List String
  sections : List String
  doc_metadata : List RNDoc
deriving DecidableEq, Repr

/-- Set insertion for the `visited_urls` model. -/
def addVisited (vs : List String) (u : String) : List String :=
  if vs.contains u then vs else vs ++ [u]

/-- Models `ReactNativeHandler.generate_file_entry`; `visitedCount` is
`len(self.visited_urls)` at call time (the call happens after the add),
so the embedded index is `visitedCount - 1`. -/
def RN.generate_file_entry (url title sec : String) (visitedCount : Nat) : RNDoc :=
  let filename := rnSlug url
  let index := visitedCount - 1
  { title := if title = "" then fallbackTitle filename else title
    url := url
    «section» := sec
    pdf_filename := pad3 index ++ "_" ++ filename ++ ".pdf"
    index := index }

/-- One iteration of the inner link loop of
`ReactNativeHandler.get_all_doc_urls`: the guard
`href and "/docs/" in href and href not in self.visited_urls` probes the
raw href; the href is resolved only afterwards, and the resolved form is
what enters `visited_urls`. -/
def RN.processLink (st : RNState) (sec : String) (lk : NavLink) : RNState :=
  match lk.href with
  | none => st
  | some href =>
    if (href != "") && strContains href "/docs/" && !(st.visited_urls.contains href) then
      let url := resolveHref href
      let visited := addVisited st.visited_urls url
      let doc := RN.generate_file_entry url lk.text sec visited.length
      { st with visited_urls := visited, doc_metadata := st.doc_metadata ++ [doc] }
    else st

/-- One iteration of the outer section loop: the section title is
appended to `self.sections` before the links are scanned. -/
def RN.processSection (st : RNState) (sec : NavSection) : RNState :=
  sec.links.foldl (fun s l => RN.processLink s sec.title l)
    { st with sections := st.sections ++ [sec.title] }

/-- Models `ReactNativeHandler.get_all_doc_urls`: when the sidebar never
appears within the bounded wait the method returns an empty list before
touching any section; otherwise it traverses the expanded tree. -/
def RN.get_all_doc_urls (sidebarOk : Bool) (tree : List NavSection) : RNState :=
  if sidebarOk then tree.foldl RN.processSection ⟨[], [], []⟩ else ⟨[], [], []⟩

/-! ## Legacy discovery (PlaywrightDocScraper.get_all_doc_urls) -/

/-- The dictionary built by `PlaywrightDocScraper.generate_file_entry`
(keys `path`, `title`, `url`, `section`, `filename`); `path` is the pdf
directory joined with the generated pdf filename, so the model stores
`pdf_filename`, again with the embedded index kept explicit. -/
structure PWDoc where
  title : String
  url : String
  «section» : String
  filename : String
  pdf_filename : String
  index : Nat
deriving DecidableEq, Repr

/-- Mutable state of the legacy scraper relevant to discovery. -/
structure PWState where
  visited_urls : List String
  sections : List String
  doc_metadata : List PWDoc
deriving DecidableEq, Repr

/-- Models `PlaywrightDocScraper.generate_file_entry`; `docCount` is
`len(self.doc_metadata)` before the append, and this slug keeps repeated
underscores (no collapsing step). -/
def PW.generate_file_entry (url title sec : String) (docCount : Nat) : PWDoc :=
  let filename := pwSlug url
  let index := docCount
  { title := if title = "" then fallbackTitle filename else title
    url := url
    «section» := sec
    filename := filename
    pdf_filename := pad3 index ++ "_" ++ filename ++ ".pdf"
    index := index }

/-- One iteration of the legacy inner link loop; the guard and the
`visited_urls` update are identical to the generic pipeline, only the
entry construction differs. -/
def PW.processLink (st : PWState) (sec : String) (lk : NavLink) : PWState :=
  match lk.href with
  | none => st
  | some href =>
    if (href != "") && strContains href "/docs/" && !(st.visited_urls.contains href) then
      let url := resolveHref href
      let visited := addVisited st.visited_urls url
      let doc := PW.generate_file_entry url lk.text sec st.doc_metadata.length
      { st with visited_urls := visited, doc_metadata := st.doc_metadata ++ [doc] }
    else st

/-- One iteration of the legacy outer section loop. -/
def PW.processSection (st : PWState) (sec : NavSection) : PWState :=
  sec.links.foldl (fun s l => PW.processLink s sec.title l)
    { st with sections := st.sections ++ [sec.title] }

/-- Models `PlaywrightDocScraper.get_all_doc_urls`. -/
def PW.get_all_doc_urls (sidebarOk : Bool) (tree : List NavSection) : PWState :=
  if sidebarOk then tree.foldl PW.processSection ⟨[], [], []⟩ else ⟨[], [], []⟩

/-! ## Canonical candidate view of a navigation tree -/

/-- The candidate triple (resolved url, link text, section title) of a
link that passes the href guard, independent of the visited set. -/
def linkTriple (sec : String) (lk : NavLink) : Option (String × String × String) :=
  match lk.href with
  | none => none
  | some href =>
    if (href != "") && strContains href "/docs/" then
      some (resolveHref href, lk.text, sec)
    else none

/-- Candidate triples contributed by one section, in DOM order. -/
def sectionTriples (sec : NavSection) : List (String × String × String) :=
  sec.links.filterMap (linkTriple sec.title)

/-- Candidate triples of the whole tree, section order then DOM order. -/
def candTriples (tree : List NavSection) : List (String × String × String) :=
  tree.flatMap sectionTriples

/-- Resolved candidate URLs of the whole tree. -/
def candUrls (tree : List NavSection) : List String :=
  (candTriples tree).map (·.1)

/-- Entry list the generic pipeline produces from consecutive candidates
when no skip fires, numbering from `k`. -/
def buildRN : Nat → List (String × String × String) → List RNDoc
  | _, [] => []
  | k, (u, t, s) :: rest => RN.generate_file_entry u t s (k + 1) :: buildRN (k + 1) rest

/-- Entry list the legacy script produces from consecutive candidates
when no skip fires, numbering from `k`. -/
def buildPW : Nat → List (String × String × String) → List PWDoc
  | _, [] => []
  | k, (u, t, s) :: rest => PW.generate_file_entry u t s k :: buildPW (k + 1) rest

example :
    (RN.get_all_doc_urls true
      [⟨"S1", [⟨some "/docs/x", "X"⟩]⟩, ⟨"S2", [⟨some "/docs/x", "X"⟩]⟩]).doc_metadata.map (·.url)
    = ["https://reactnative.dev/docs/x", "https://reactnative.dev/docs/x"] := by decide

example :
    (RN.get_all_doc_urls true
      [⟨"S", [⟨some "/docs/x", "X"⟩, ⟨some "/docs/x", "X"⟩]⟩]).doc_metadata.map (·.index)
    = [0, 0] := by decide

example :
    (RN.get_all_doc_urls true
      [⟨"S", [⟨some "/docs/a", "A"⟩, ⟨some "/docs/b", "B"⟩]⟩]).doc_metadata.map (·.index)
    = [0, 1] := by decide

/-! ## Discovery invariants -/

theorem slash_not_prefix {c : Char} (cs : List Char) (hc : c ≠ '/') :
    ['/'].isPrefixOf (c :: cs) = false := by
  show (('/' == c) && ([] : List Char).isPrefixOf cs) = false
  have hb : ('/' == c) = false := beq_eq_false_iff_ne.mpr (fun hh => hc hh.symm)
  simp [hb]

theorem resolveHref_not_slash (h : String) : strStarts (resolveHref h) "/" = false := by
  unfold resolveHref
  split
  · split
    · show strStarts ("https:" ++ h) "/" = false
      have hd : ("https:" ++ h).data = 'h' :: ("ttps:".data ++ h.data) := by
        simp [String.data_append]
      simp only [strStarts, hd]
      exact slash_not_prefix _ (by decide)
    · show strStarts (rnBaseUrl ++ h) "/" = false
      have hd : (rnBaseUrl ++ h).data = 'h' :: ("ttps://reactnative.dev".data ++ h.data) := by
        simp [rnBaseUrl, String.data_append]
      simp only [strStarts, hd]
      exact slash_not_prefix _ (by decide)
  · next hs => simpa using hs

theorem contains_eq_false_of_not_mem {l : List String} {a : String}
    (h : a ∉ l) : l.contains a = false := by
  simpa using h

theorem addVisited_of_not_mem {l : List String} {a : String}
    (h : a ∉ l) : addVisited l a = l ++ [a] := by
  unfold addVisited
  rw [contains_eq_false_of_not_mem h]
  simp

theorem buildRN_append (a b : List (String × String × String)) :
    ∀ k, buildRN k (a ++ b) = buildRN k a ++ buildRN (k + a.length) b := by
  induction a with
  | nil => simp [buildRN]
  | cons hd tl ih =>
    intro k
    obtain ⟨u, t, s⟩ := hd
    have h2 : k + 1 + tl.length = k + (tl.length + 1) := by omega
    simp only [List.cons_append, buildRN, List.length_cons, List.append_eq, ih, h2]

/-- Invariant run of the inner link loop: starting from a state whose
visited set has one element per produced entry, contains no
slash-initial string, and is disjoint from the pairwise-distinct
candidate URLs still to come, the loop skips nothing and appends exactly
the candidate entries, numbering on from the current entry count. -/
theorem RN.fold_links_generic (sec : String) :
    ∀ (links : List NavLink) (st : RNState),
      st.visited_urls.length = st.doc_metadata.length →
      (∀ v ∈ st.visited_urls, strStarts v "/" = false) →
      (st.visited_urls ++ (links.filterMap (linkTriple sec)).map (·.1)).Nodup →
      links.foldl (fun s l => RN.processLink s sec l) st =
        { visited_urls := st.visited_urls ++ (links.filterMap (linkTriple sec)).map (·.1)
          sections := st.sections
          doc_metadata := st.doc_metadata ++
            buildRN st.doc_metadata.length (links.filterMap (linkTriple sec)) : RNState }
  | [], st => by
    intro _ _ _
    simp [buildRN]
  | lk :: rest, st => by
    intro h1 h2 h3
    rcases hl : lk.href with _ | href
    · have hpl : RN.processLink st sec lk = st := by simp [RN.processLink, hl]
      have htr : linkTriple sec lk = none := by simp [linkTriple, hl]
      simp only [List.foldl_cons, hpl, List.filterMap_cons, htr]
      exact RN.fold_links_generic sec rest st h1 h2
        (by simpa only [List.filterMap_cons, htr] using h3)
    · by_cases hguard : ((href != "") && strContains href "/docs/") = true
      · have htr : linkTriple sec lk = some (resolveHref href, lk.text, sec) := by
          simp [linkTriple, hl, hguard]
        have h3' : (st.visited_urls ++ resolveHref href ::
            (rest.filterMap (linkTriple sec)).map (·.1)).Nodup := by
          simpa only [List.filterMap_cons, htr, List.map_cons] using h3
        have hnotmem : resolveHref href ∉ st.visited_urls := by
          intro hm
          rcases List.nodup_append.mp h3' with ⟨-, -, hdisj⟩
          exact hdisj hm (List.mem_cons_self _ _)
        have hcontains : st.visited_urls.contains href = false := by
          by_cases hs : strStarts href "/" = true
          · refine contains_eq_false_of_not_mem (fun hm => ?_)
            have := h2 href hm
            rw [this] at hs
            cases hs
          · have hu : resolveHref href = href := by
              simp [resolveHref, eq_false_of_ne_true hs]
            exact contains_eq_false_of_not_mem (fun hm => hnotmem (by rw [hu]; exact hm))
        have haddv : addVisited st.visited_urls (resolveHref href) =
            st.visited_urls ++ [resolveHref href] := addVisited_of_not_mem hnotmem
        have hpl : RN.processLink st sec lk =
            { visited_urls := st.visited_urls ++ [resolveHref href]
              sections := st.sections
              doc_metadata := st.doc_metadata ++
                [RN.generate_file_entry (resolveHref href) lk.text sec
                  (st.doc_metadata.length + 1)] : RNState } := by
          simp only [RN.processLink, hl, hguard, hcontains, Bool.not_false,
            Bool.and_true, Bool.true_and, if_true, haddv, List.length_append,
            List.length_singleton, h1]
        have h1' : (st.visited_urls ++ [resolveHref href]).length =
            (st.doc_metadata ++
              [RN.generate_file_entry (resolveHref href) lk.text sec
                (st.doc_metadata.length + 1)]).length := by
          simp [h1]
        have h2' : ∀ v ∈ st.visited_urls ++ [resolveHref href], strStarts v "/" = false := by
          intro v hv
          rcases List.mem_append.mp hv with hv | hv
          · exact h2 v hv
          · rcases List.mem_singleton.mp hv with rfl
            exact resolveHref_not_slash href
        have h3'' : ((st.visited_urls ++ [resolveHref href]) ++
            (rest.filterMap (linkTriple sec)).map (·.1)).Nodup := by
          rw [← List.append_cons]
          exact h3'
        have hrec := RN.fold_links_generic sec rest
          { visited_urls := st.visited_urls ++ [resolveHref href]
            sections := st.sections
            doc_metadata := st.doc_metadata ++
              [RN.generate_file_entry (resolveHref href) lk.text sec
                (st.doc_metadata.length + 1)] : RNState } h1' h2' h3''
        simp only [List.foldl_cons, hpl]
        rw [hrec]
        simp only [List.filterMap_cons, htr, List.map_cons, buildRN,
          List.length_append, List.length_singleton, List.append_assoc,
          List.singleton_append]
      · have hg' : ((href != "") && strContains href "/docs/") = false :=
          eq_false_of_ne_true hguard
        have hpl : RN.processLink st sec lk = st := by
          simp [RN.processLink, hl, hg']
        have htr : linkTriple sec lk = none := by simp [linkTriple, hl, hg']
        simp only [List.foldl_cons, hpl, List.filterMap_cons, htr]
        exact RN.fold_links_generic sec rest st h1 h2
          (by simpa only [List.filterMap_cons, htr] using h3)

theorem buildRN_length (ts : List (String × String × String)) :
    ∀ k, (buildRN k ts).length = ts.length := by
  induction ts with
  | nil => intro k; rfl
  | cons hd tl ih =>
    intro k
    obtain ⟨u, t, s⟩ := hd
    simp [buildRN, ih]

theorem triple_url_not_slash (s : String) (ls : List NavLink) :
    ∀ p ∈ ls.filterMap (linkTriple s), strStarts p.1 "/" = false := by
  intro p hp
  rcases List.mem_filterMap.mp hp with ⟨lk, -, heq⟩
  rcases hl : lk.href with _ | href
  · simp [linkTriple, hl] at heq
  · simp only [linkTriple, hl] at heq
    by_cases hg : ((href != "") && strContains href "/docs/") = true
    · rw [if_pos hg] at heq
      cases heq
      exact resolveHref_not_slash href
    · rw [if_neg hg] at heq
      simp at heq

/-- Invariant run of the outer section loop: with pairwise-distinct
candidate URLs the traversal appends every section title, visits every
candidate, and produces one entry per candidate in traversal order. -/
theorem RN.fold_sections_generic :
    ∀ (tree : List NavSection) (st : RNState),
      st.visited_urls.length = st.doc_metadata.length →
      (∀ v ∈ st.visited_urls, strStarts v "/" = false) →
      (st.visited_urls ++ candUrls tree).Nodup →
      tree.foldl RN.processSection st =
        { visited_urls := st.visited_urls ++ candUrls tree
          sections := st.sections ++ tree.map (·.title)
          doc_metadata := st.doc_metadata ++
            buildRN st.doc_metadata.length (candTriples tree) : RNState }
  | [], st => by
    intro _ _ _
    simp [candUrls, candTriples, buildRN]
  | sec :: rest, st => by
    intro h1 h2 h3
    have hct : candTriples (sec :: rest) = sectionTriples sec ++ candTriples rest := by
      simp [candTriples]
    have hcu : candUrls (sec :: rest) =
        (sectionTriples sec).map (·.1) ++ candUrls rest := by
      simp [candUrls, hct]
    rw [hcu] at h3
    have h3l : (st.visited_urls ++
        (sec.links.filterMap (linkTriple sec.title)).map (·.1)).Nodup := by
      have := h3
      rw [← List.append_assoc] at this
      exact this.of_append_left
    have hsec : RN.processSection st sec =
        { visited_urls := st.visited_urls ++ (sectionTriples sec).map (·.1)
          sections := st.sections ++ [sec.title]
          doc_metadata := st.doc_metadata ++
            buildRN st.doc_metadata.length (sectionTriples sec) : RNState } := by
      unfold RN.processSection
      exact RN.fold_links_generic sec.title sec.links
        { st with sections := st.sections ++ [sec.title] } h1 h2 h3l
    have h1' : (st.visited_urls ++ (sectionTriples sec).map (·.1)).length =
        (st.doc_metadata ++ buildRN st.doc_metadata.length (sectionTriples sec)).length := by
      simp [List.length_append, List.length_map, buildRN_length, h1]
    have h2' : ∀ v ∈ st.visited_urls ++ (sectionTriples sec).map (·.1),
        strStarts v "/" = false := by
      intro v hv
      rcases List.mem_append.mp hv with hv | hv
      · exact h2 v hv
      · rcases List.mem_map.mp hv with ⟨p, hp, rfl⟩
        exact triple_url_not_slash sec.title sec.links p hp
    have h3' : ((st.visited_urls ++ (sectionTriples sec).map (·.1)) ++
        candUrls rest).Nodup := by
      rw [List.append_assoc]
      exact h3
    have hrec := RN.fold_sections_generic rest
      { visited_urls := st.visited_urls ++ (sectionTriples sec).map (·.1)
        sections := st.sections ++ [sec.title]
        doc_metadata := st.doc_metadata ++
          buildRN st.doc_metadata.length (sectionTriples sec) : RNState }
      h1' h2' h3'
    show List.foldl RN.processSection (RN.processSection st sec) rest = _
    rw [hsec, hrec]
    simp only [hct, hcu, buildRN_append, buildRN_length, List.length_append,
      List.map_cons, List.append_assoc, List.singleton_append]

/-- Characterization of `ReactNativeHandler.get_all_doc_urls` on trees
whose candidate URLs are pairwise distinct: one entry per candidate in
traversal order, numbered consecutively. -/
theorem RN.discover_eq_generic (tree : List NavSection) (h : (candUrls tree).Nodup) :
    RN.get_all_doc_urls true tree =
      { visited_urls := candUrls tree
        sections := tree.map (·.title)
        doc_metadata := buildRN 0 (candTriples tree) : RNState } := by
  have hfold := RN.fold_sections_generic tree ⟨[], [], []⟩ rfl (by intro v hv; cases hv)
    (by simpa using h)
  simpa [RN.get_all_doc_urls] using hfold

theorem buildPW_length (ts : List (String × String × String)) :
    ∀ k, (buildPW k ts).length = ts.length := by
  induction ts with
  | nil => intro k; rfl
  | cons hd tl ih =>
    intro k
    obtain ⟨u, t, s⟩ := hd
    simp [buildPW, ih]

theorem buildPW_append (a b : List (String × String × String)) :
    ∀ k, buildPW k (a ++ b) = buildPW k a ++ buildPW (k + a.length) b := by
  induction a with
  | nil => simp [buildPW]
  | cons hd tl ih =>
    intro k
    obtain ⟨u, t, s⟩ := hd
    have h2 : k + 1 + tl.length = k + (tl.length + 1) := by omega
    simp only [List.cons_append, buildPW, List.length_cons, List.append_eq, ih, h2]

/-- Legacy counterpart of `RN.fold_links_generic` for
`PlaywrightDocScraper.get_all_doc_urls`: the skip condition and visited
bookkeeping are identical, only the entry numbering differs. -/
theorem PW.fold_links_legacy (sec : String) :
    ∀ (links : List NavLink) (st : PWState),
      (∀ v ∈ st.visited_urls, strStarts v "/" = false) →
      (st.visited_urls ++ (links.filterMap (linkTriple sec)).map (·.1)).Nodup →
      links.foldl (fun s l => PW.processLink s sec l) st =
        { visited_urls := st.visited_urls ++ (links.filterMap (linkTriple sec)).map (·.1)
          sections := st.sections
          doc_metadata := st.doc_metadata ++
            buildPW st.doc_metadata.length (links.filterMap (linkTriple sec)) : PWState }
  | [], st => by
    intro _ _
    simp [buildPW]
  | lk :: rest, st => by
    intro h2 h3
    rcases hl : lk.href with _ | href
    · have hpl : PW.processLink st sec lk = st := by simp [PW.processLink, hl]
      have htr : linkTriple sec lk = none := by simp [linkTriple, hl]
      simp only [List.foldl_cons, hpl, List.filterMap_cons, htr]
      exact PW.fold_links_legacy sec rest st h2
        (by simpa only [List.filterMap_cons, htr] using h3)
    · by_cases hguard : ((href != "") && strContains href "/docs/") = true
      · have htr : linkTriple sec lk = some (resolveHref href, lk.text, sec) := by
          simp [linkTriple, hl, hguard]
        have h3' : (st.visited_urls ++ resolveHref href ::
            (rest.filterMap (linkTriple sec)).map (·.1)).Nodup := by
          simpa only [List.filterMap_cons, htr, List.map_cons] using h3
        have hnotmem : resolveHref href ∉ st.visited_urls := by
          intro hm
          rcases List.nodup_append.mp h3' with ⟨-, -, hdisj⟩
          exact hdisj hm (List.mem_cons_self _ _)
        have hcontains : st.visited_urls.contains href = false := by
          by_cases hs : strStarts href "/" = true
          · refine contains_eq_false_of_not_mem (fun hm => ?_)
            have := h2 href hm
            rw [this] at hs
            cases hs
          · have hu : resolveHref href = href := by
              simp [resolveHref, eq_false_of_ne_true hs]
            exact contains_eq_false_of_not_mem (fun hm => hnotmem (by rw [hu]; exact hm))
        have haddv : addVisited st.visited_urls (resolveHref href) =
            st.visited_urls ++ [resolveHref href] := addVisited_of_not_mem hnotmem
        have hpl : PW.processLink st sec lk =
            { visited_urls := st.visited_urls ++ [resolveHref href]
              sections := st.sections
              doc_metadata := st.doc_metadata ++
                [PW.generate_file_entry (resolveHref href) lk.text sec
                  st.doc_metadata.length] : PWState } := by
          simp only [PW.processLink, hl, hguard, hcontains, Bool.not_false,
            Bool.and_true, Bool.true_and, if_true, haddv]
        have h2' : ∀ v ∈ st.visited_urls ++ [resolveHref href], strStarts v "/" = false := by
          intro v hv
          rcases List.mem_append.mp hv with hv | hv
          · exact h2 v hv
          · rcases List.mem_singleton.mp hv with rfl
            exact resolveHref_not_slash href
        have h3'' : ((st.visited_urls ++ [resolveHref href]) ++
            (rest.filterMap (linkTriple sec)).map (·.1)).Nodup := by
          rw [← List.append_cons]
          exact h3'
        have hrec := PW.fold_links_legacy sec rest
          { visited_urls := st.visited_urls ++ [resolveHref href]
            sections := st.sections
            doc_metadata := st.doc_metadata ++
              [PW.generate_file_entry (resolveHref href) lk.text sec
                st.doc_metadata.length] : PWState } h2' h3''
        simp only [List.foldl_cons, hpl]
        rw [hrec]
        simp only [List.filterMap_cons, htr, List.map_cons, buildPW,
          List.length_append, List.length_singleton, List.append_assoc,
          List.singleton_append]
      · have hg' : ((href != "") && strContains href "/docs/") = false :=
          eq_false_of_ne_true hguard
        have hpl : PW.processLink st sec lk = st := by
          simp [PW.processLink, hl, hg']
        have htr : linkTriple sec lk = none := by simp [linkTriple, hl, hg']
        simp only [List.foldl_cons, hpl, List.filterMap_cons, htr]
        exact PW.fold_links_legacy sec rest st h2
          (by simpa only [List.filterMap_cons, htr] using h3)

/-- Legacy counterpart of `RN.fold_sections_generic`. -/
theorem PW.fold_sections_legacy :
    ∀ (tree : List NavSection) (st : PWState),
      (∀ v ∈ st.visited_urls, strStarts v "/" = false) →
      (st.visited_urls ++ candUrls tree).Nodup →
      tree.foldl PW.processSection st =
        { visited_urls := st.visited_urls ++ candUrls tree
          sections := st.sections ++ tree.map (·.title)
          doc_metadata := st.doc_metadata ++
            buildPW st.doc_metadata.length (candTriples tree) : PWState }
  | [], st => by
    intro _ _
    simp [candUrls, candTriples, buildPW]
  | sec :: rest, st => by
    intro h2 h3
    have hct : candTriples (sec :: rest) = sectionTriples sec ++ candTriples rest := by
      simp [candTriples]
    have hcu : candUrls (sec :: rest) =
        (sectionTriples sec).map (·.1) ++ candUrls rest := by
      simp [candUrls, hct]
    rw [hcu] at h3
    have h3l : (st.visited_urls ++
        (sec.links.filterMap (linkTriple sec.title)).map (·.1)).Nodup := by
      have := h3
      rw [← List.append_assoc] at this
      exact this.of_append_left
    have hsec : PW.processSection st sec =
        { visited_urls := st.visited_urls ++ (sectionTriples sec).map (·.1)
          sections := st.sections ++ [sec.title]
          doc_metadata := st.doc_metadata ++
            buildPW st.doc_metadata.length (sectionTriples sec) : PWState } := by
      unfold PW.processSection
      exact PW.fold_links_legacy sec.title sec.links
        { st with sections := st.sections ++ [sec.title] } h2 h3l
    have h2' : ∀ v ∈ st.visited_urls ++ (sectionTriples sec).map (·.1),
        strStarts v "/" = false := by
      intro v hv
      rcases List.mem_append.mp hv with hv | hv
      · exact h2 v hv
      · rcases List.mem_map.mp hv with ⟨p, hp, rfl⟩
        exact triple_url_not_slash sec.title sec.links p hp
    have h3' : ((st.visited_urls ++ (sectionTriples sec).map (·.1)) ++
        candUrls rest).Nodup := by
      rw [List.append_assoc]
      exact h3
    have hrec := PW.fold_sections_legacy rest
      { visited_urls := st.visited_urls ++ (sectionTriples sec).map (·.1)
        sections := st.sections ++ [sec.title]
        doc_metadata := st.doc_metadata ++
          buildPW st.doc_metadata.length (sectionTriples sec) : PWState }
      h2' h3'
    show List.foldl PW.processSection (PW.processSection st sec) rest = _
    rw [hsec, hrec]
    simp only [hct, hcu, buildPW_append, buildPW_length, List.length_append,
      List.map_cons, List.append_assoc, List.singleton_append]

/-- Characterization of the legacy `PlaywrightDocScraper.get_all_doc_urls`
on trees whose candidate URLs are pairwise distinct. -/
theorem PW.discover_eq_legacy (tree : List NavSection) (h : (candUrls tree).Nodup) :
    PW.get_all_doc_urls true tree =
      { visited_urls := candUrls tree
        sections := tree.map (·.title)
        doc_metadata := buildPW 0 (candTriples tree) : PWState } := by
  have hfold := PW.fold_sections_legacy tree ⟨[], [], []⟩ (by intro v hv; cases hv)
    (by simpa using h)
  simpa [PW.get_all_doc_urls] using hfold

/-! ## Shape of the generated entry lists -/

theorem buildRN_map_index (ts : List (String × String × String)) :
    ∀ k, (buildRN k ts).map (·.index) = List.range' k ts.length := by
  induction ts with
  | nil => intro k; rfl
  | cons hd tl ih =>
    intro k
    obtain ⟨u, t, s⟩ := hd
    simp [buildRN, RN.generate_file_entry, List.range', ih]

theorem buildPW_map_index (ts : List (String × String × String)) :
    ∀ k, (buildPW k ts).map (·.index) = List.range' k ts.length := by
  induction ts with
  | nil => intro k; rfl
  | cons hd tl ih =>
    intro k
    obtain ⟨u, t, s⟩ := hd
    simp [buildPW, PW.generate_file_entry, List.range', ih]

theorem buildRN_map_url (ts : List (String × String × String)) :
    ∀ k, (buildRN k ts).map (·.url) = ts.map (·.1) := by
  induction ts with
  | nil => intro k; rfl
  | cons hd tl ih =>
    intro k
    obtain ⟨u, t, s⟩ := hd
    simp [buildRN, RN.generate_file_entry, ih]

theorem buildPW_map_url (ts : List (String × String × String)) :
    ∀ k, (buildPW k ts).map (·.url) = ts.map (·.1) := by
  induction ts with
  | nil => intro k; rfl
  | cons hd tl ih =>
    intro k
    obtain ⟨u, t, s⟩ := hd
    simp [buildPW, PW.generate_file_entry, ih]

theorem buildRN_pdf_spec (ts : List (String × String × String)) :
    ∀ k, ∀ e ∈ buildRN k ts,
      e.pdf_filename = pad3 e.index ++ "_" ++ rnSlug e.url ++ ".pdf" := by
  induction ts with
  | nil => intro k e he; cases he
  | cons hd tl ih =>
    intro k e he
    obtain ⟨u, t, s⟩ := hd
    rcases List.mem_cons.mp he with rfl | he
    · rfl
    · exact ih (k + 1) e he

theorem collapseAux_eq_self :
    ∀ cs : List Char, hasDoubleUnderscore cs = false →
      collapseAux false cs = cs ∧ (cs.head? ≠ some '_' → collapseAux true cs = cs)
  | [] => by intro _; exact ⟨rfl, fun _ => rfl⟩
  | c :: rest => by
    intro h
    by_cases hc : c = '_'
    · subst hc
      have hrest : hasDoubleUnderscore rest = false ∧ rest.head? ≠ some '_' := by
        cases rest with
        | nil => exact ⟨rfl, by simp⟩
        | cons d rest' =>
          simp only [hasDoubleUnderscore, Bool.or_eq_false_iff, Bool.and_eq_false_iff] at h
          rcases h with ⟨hd, hdd⟩
          refine ⟨hdd, ?_⟩
          rcases hd with hd | hd
          · simp at hd
          · simp only [List.head?_cons, Ne, Option.some_inj]
            intro hcontra
            rw [hcontra] at hd
            simp at hd
      constructor
      · show '_' :: collapseAux true rest = '_' :: rest
        rw [(collapseAux_eq_self rest hrest.1).2 hrest.2]
      · intro hhd
        simp at hhd
    · have hrest : hasDoubleUnderscore rest = false := by
        cases rest with
        | nil => rfl
        | cons d rest' =>
          simp only [hasDoubleUnderscore, Bool.or_eq_false_iff] at h
          exact h.2
      have hfalse : collapseAux false (c :: rest) = c :: rest := by
        show (if c = '_' then _ else c :: collapseAux false rest) = c :: rest
        rw [if_neg hc, (collapseAux_eq_self rest hrest).1]
      refine ⟨hfalse, fun _ => ?_⟩
      show (if c = '_' then _ else c :: collapseAux false rest) = c :: rest
      rw [if_neg hc, (collapseAux_eq_self rest hrest).1]

/-- When the shared slug has no repeated underscore, the extra collapsing
step of the react-native handler changes nothing. -/
theorem rnSlug_eq_pwSlug (url : String)
    (h : hasDoubleUnderscore (pwSlug url).data = false) : rnSlug url = pwSlug url := by
  show String.mk (collapseUnderscores (pwSlug url).data) = pwSlug url
  rw [collapseUnderscores, (collapseAux_eq_self _ h).1]

theorem build_pdf_maps_eq (ts : List (String × String × String))
    (h : ∀ t ∈ ts, hasDoubleUnderscore (pwSlug t.1).data = false) :
    ∀ k, (buildRN k ts).map (·.pdf_filename) = (buildPW k ts).map (·.pdf_filename) := by
  induction ts with
  | nil => intro k; rfl
  | cons hd tl ih =>
    intro k
    obtain ⟨u, t, s⟩ := hd
    have hu : hasDoubleUnderscore (pwSlug u).data = false :=
      h (u, t, s) (List.mem_cons_self _ _)
    have htl : ∀ t ∈ tl, hasDoubleUnderscore (pwSlug t.1).data = false :=
      fun t ht => h t (List.mem_cons_of_mem _ ht)
    simp [buildRN, buildPW, RN.generate_file_entry, PW.generate_file_entry,
      rnSlug_eq_pwSlug u hu, ih htl]

/-! ## Renderer, TOC and merge (doc_scraper.py with the react-native handler) -/

/-- Observable browser and filesystem actions of one run. -/
inductive RunEvent where
  | goto (url : String)
  | saved (pdf : String)
  | errorLog (url : String)
  | tocCreated
  | mergeRun
deriving DecidableEq, Repr

/-- Filesystem write: `page.pdf(path=...)` creates the file (the set of
existing files is modelled as a duplicate-free list). -/
def addFile (fs : List String) (f : String) : List String :=
  if fs.contains f then fs else fs ++ [f]

/-- Return value and effects of one `save_page_as_pdf` call. -/
structure SaveResult where
  success : Bool
  files : List String
  events : List RunEvent
deriving DecidableEq, Repr

/-- Models `DocumentationScraper.save_page_as_pdf`.  The cache branch
(`self.cached and os.path.exists(...)`) returns success with no browser
action at all; otherwise the page is navigated and the oracle `ok`
abstracts whether every step through the PDF export succeeds for this
URL; any exception is caught and logged with the URL. -/
def DS.save_page_as_pdf (cached : Bool) (ok : String → Bool)
    (files : List String) (doc : RNDoc) : SaveResult :=
  if cached && files.contains doc.pdf_filename then
    { success := true, files := files, events := [] }
  else if ok doc.url then
    { success := true
      files := addFile files doc.pdf_filename
      events := [.goto doc.url, .saved doc.pdf_filename] }
  else
    { success := false, files := files, events := [.goto doc.url, .errorLog doc.url] }

/-- Accumulated outcome of the render loop in `scrape_all_docs`. -/
structure LoopResult where
  successful : Nat
  failed : Nat
  files : List String
  events : List RunEvent
deriving DecidableEq, Repr

/-- Models the `for i, doc in enumerate(all_docs, 1)` render loop of
`DocumentationScraper.scrape_all_docs`: each entry is processed in
order, a truthy return increments `successful`, anything else `failed`. -/
def DS.scrape_loop (cached : Bool) (ok : String → Bool) :
    List RNDoc → List String → LoopResult
  | [], files => ⟨0, 0, files, []⟩
  | doc :: rest, files =>
    let r := DS.save_page_as_pdf cached ok files doc
    let lr := DS.scrape_loop cached ok rest r.files
    ⟨(if r.success then 1 else 0) + lr.successful,
     (if r.success then 0 else 1) + lr.failed,
     lr.files,
     r.events ++ lr.events⟩

/-- One line of the synthesized table of contents (the model keeps the
logical items rather than the HTML text around them). -/
inductive TocItem where
  | header (title : String)
  | entry (num : Nat) (title url : String)
deriving DecidableEq, Repr

/-- Inner loop of `create_table_of_contents`: the articles of one section
numbered by the running `article_counter` starting at `c`. -/
def DS.numberDocs : Nat → List RNDoc → List TocItem
  | _, [] => []
  | c, d :: ds => .entry c d.title d.url :: DS.numberDocs (c + 1) ds

/-- Outer loop of `create_table_of_contents`: iterate the declared
section list; `section in sections_dict` is exactly the test that the
filtered entry list is nonempty; the counter is threaded, never reset. -/
def DS.tocAux (docs : List RNDoc) : List String → Nat → List TocItem
  | [], _ => []
  | s :: rest, c =>
    let ds := docs.filter (fun d => d.«section» == s)
    if ds.isEmpty then DS.tocAux docs rest c
    else .header s :: (DS.numberDocs c ds ++ DS.tocAux docs rest (c + ds.length))

/-- Models `DocumentationScraper.create_table_of_contents`: grouping by
section, iterating `self.site_handler.sections` in declared order, with
`article_counter` starting at 1. -/
def DS.create_table_of_contents (sections : List String) (docs : List RNDoc) : List TocItem :=
  DS.tocAux docs sections 1

/-- The pseudo-entry inserted at position 0 by `create_toc_pdf`.  The
Python dictionary carries only `title`, `url` and `pdf_filename`; the
`section` and `index` fields here are placeholders never read by the
merge step, the only consumer of this entry. -/
def DS.tocEntry : RNDoc :=
  { title := "Table of Contents"
    url := "Table of Contents"
    «section» := ""
    pdf_filename := "000_table_of_contents.pdf"
    index := 0 }

/-- Models `DocumentationScraper.create_toc_pdf`: on success the TOC pdf
is written under the reserved name and the pseudo-entry is inserted at
position 0 of `doc_metadata`; on any exception the list and files are
left untouched and the failure is reported. -/
def DS.create_toc_pdf (tocOk : Bool) (docs : List RNDoc) (files : List String) :
    List RNDoc × List String × List RunEvent :=
  if tocOk then
    (DS.tocEntry :: docs, addFile files "000_table_of_contents.pdf", [.tocCreated])
  else (docs, files, [])

/-- Merged file name returned by
`ReactNativeHandler.get_merged_pdf_name`. -/
def DS.merged_pdf_name : String := "React_Native_Documentation.pdf"

/-- Outcome of `merge_pdfs`: the appended files in order, the warned
missing files in order, and the returned path (None on failure). -/
structure MergeResult where
  appended : List String
  warnings : List String
  result : Option String
deriving DecidableEq, Repr

/-- The `for doc in self.doc_metadata` loop of `merge_pdfs`: an existing
file is appended to the merger, a missing one is warned about and
skipped; the loop never aborts. -/
def DS.merge_loop (ex : String → Bool) : List String → List String × List String
  | [] => ([], [])
  | f :: fs =>
    let r := DS.merge_loop ex fs
    if ex f then (f :: r.1, r.2) else (r.1, f :: r.2)

/-- Models `DocumentationScraper.merge_pdfs` over the `pdf_filename`
projection of `doc_metadata` (the only key the loop reads); `writeOk`
abstracts whether the PDF library can produce the output file, the one
thing the surrounding try/except turns into a None return. -/
def DS.merge_pdfs (filenames : List String) (ex : String → Bool) (writeOk : Bool) :
    MergeResult :=
  let r := DS.merge_loop ex filenames
  { appended := r.1
    warnings := r.2
    result := if writeOk then some DS.merged_pdf_name else none }

/-- Final state of one orchestrated run. -/
structure RunReport where
  doc_metadata : List RNDoc
  successful : Nat
  failed : Nat
  events : List RunEvent
  merged : Option String
deriving DecidableEq, Repr

/-- Models `DocumentationScraper.scrape_all_docs`: discovery, the
`if not all_docs: return` early exit, the render loop, TOC creation,
and the merge over the TOC-prepended metadata, checking existence
against the files actually written. -/
def DS.scrape_all_docs (sidebarOk cached tocOk writeOk : Bool) (ok : String → Bool)
    (tree : List NavSection) : RunReport :=
  let st := RN.get_all_doc_urls sidebarOk tree
  if st.doc_metadata.isEmpty then
    { doc_metadata := [], successful := 0, failed := 0, events := [], merged := none }
  else
    let lr := DS.scrape_loop cached ok st.doc_metadata []
    let tr := DS.create_toc_pdf tocOk st.doc_metadata lr.files
    let mr := DS.merge_pdfs (tr.1.map (·.pdf_filename)) (fun f => tr.2.1.contains f) writeOk
    { doc_metadata := tr.1
      successful := lr.successful
      failed := lr.failed
      events := lr.events ++ tr.2.2 ++ [.mergeRun]
      merged := mr.result }

/-! ## Render-loop and merge lemmas -/

theorem DS.save_cache_hit (ok : String → Bool) (files : List String) (doc : RNDoc)
    (h : files.contains doc.pdf_filename = true) :
    DS.save_page_as_pdf true ok files doc = ⟨true, files, []⟩ := by
  unfold DS.save_page_as_pdf
  have hc : (true && files.contains doc.pdf_filename) = true := by
    rw [Bool.true_and, h]
  rw [if_pos hc]

theorem addFile_contains_self (fs : List String) (f : String) :
    (addFile fs f).contains f = true := by
  by_cases h : fs.contains f = true
  · unfold addFile
    rw [if_pos h]
    exact h
  · unfold addFile
    rw [if_neg h]
    simp

theorem addFile_contains_mono (fs : List String) (f g : String)
    (h : fs.contains g = true) : (addFile fs f).contains g = true := by
  unfold addFile
  split
  · exact h
  · have hg : g ∈ fs := by simpa using h
    have hm : g ∈ fs ++ [f] := List.mem_append_left _ hg
    simpa using hm

theorem DS.save_files_mono (cached : Bool) (ok : String → Bool) (files : List String)
    (doc : RNDoc) (g : String) (h : files.contains g = true) :
    (DS.save_page_as_pdf cached ok files doc).files.contains g = true := by
  unfold DS.save_page_as_pdf
  split
  · exact h
  · split
    · exact addFile_contains_mono _ _ _ h
    · exact h

theorem DS.loop_files_mono (cached : Bool) (ok : String → Bool) :
    ∀ (docs : List RNDoc) (files : List String) (g : String),
      files.contains g = true →
      (DS.scrape_loop cached ok docs files).files.contains g = true
  | [], _, _ => fun h => h
  | doc :: rest, files, g => fun h => by
    show (DS.scrape_loop cached ok rest
      (DS.save_page_as_pdf cached ok files doc).files).files.contains g = true
    exact DS.loop_files_mono cached ok rest _ g (DS.save_files_mono _ _ _ _ _ h)

theorem DS.loop_files_cover (cached : Bool) (ok : String → Bool) :
    ∀ (docs : List RNDoc) (files : List String),
      (∀ d ∈ docs, ok d.url = true) →
      ∀ d ∈ docs, (DS.scrape_loop cached ok docs files).files.contains d.pdf_filename = true
  | [], _ => by intro _ d hd; cases hd
  | doc :: rest, files => by
    intro hok d hd
    have hfile1 : (DS.save_page_as_pdf cached ok files doc).files.contains
        doc.pdf_filename = true := by
      unfold DS.save_page_as_pdf
      split
      · next hcond =>
        exact (Bool.and_eq_true _ _ |>.mp hcond).2
      · rw [if_pos (by rw [hok doc (List.mem_cons_self _ _)])]
        exact addFile_contains_self _ _
    rcases List.mem_cons.mp hd with rfl | hd
    · show (DS.scrape_loop cached ok rest
        (DS.save_page_as_pdf cached ok files d).files).files.contains d.pdf_filename = true
      exact DS.loop_files_mono cached ok rest _ _ hfile1
    · exact DS.loop_files_cover cached ok rest _
        (fun x hx => hok x (List.mem_cons_of_mem _ hx)) d hd

/-- A cached render pass over entries whose files all exist does nothing:
every entry short-circuits as success, no event is emitted, the file set
is untouched. -/
theorem DS.loop_all_cached (ok : String → Bool) :
    ∀ (docs : List RNDoc) (files : List String),
      (∀ d ∈ docs, files.contains d.pdf_filename = true) →
      DS.scrape_loop true ok docs files = ⟨docs.length, 0, files, []⟩
  | [], _ => by intro _; rfl
  | doc :: rest, files => by
    intro h
    have hhit := DS.save_cache_hit ok files doc (h doc (List.mem_cons_self _ _))
    have hrest := DS.loop_all_cached ok rest files
      (fun d hd => h d (List.mem_cons_of_mem _ hd))
    simp [DS.scrape_loop, hhit, hrest, Nat.add_comm]

/-- Closed form of an uncached render pass: the counters are the filter
lengths, the events are two per entry in order. -/
theorem DS.loop_uncached_spec (ok : String → Bool) :
    ∀ (docs : List RNDoc) (files : List String),
      DS.scrape_loop false ok docs files =
        ⟨(docs.filter (fun d => ok d.url)).length,
         (docs.filter (fun d => !(ok d.url))).length,
         docs.foldl (fun fs d => if ok d.url then addFile fs d.pdf_filename else fs) files,
         docs.flatMap (fun d =>
           if ok d.url then [RunEvent.goto d.url, RunEvent.saved d.pdf_filename]
           else [RunEvent.goto d.url, RunEvent.errorLog d.url])⟩
  | [], files => rfl
  | doc :: rest, files => by
    by_cases hok : ok doc.url = true
    · have hr : DS.save_page_as_pdf false ok files doc =
          ⟨true, addFile files doc.pdf_filename,
           [.goto doc.url, .saved doc.pdf_filename]⟩ := by
        simp [DS.save_page_as_pdf, hok]
      have hrest := DS.loop_uncached_spec ok rest (addFile files doc.pdf_filename)
      simp [DS.scrape_loop, hr, hrest, List.filter_cons, hok, Nat.add_comm]
    · have hok' : ok doc.url = false := eq_false_of_ne_true hok
      have hr : DS.save_page_as_pdf false ok files doc =
          ⟨false, files, [.goto doc.url, .errorLog doc.url]⟩ := by
        simp [DS.save_page_as_pdf, hok']
      have hrest := DS.loop_uncached_spec ok rest files
      simp [DS.scrape_loop, hr, hrest, List.filter_cons, hok', Nat.add_comm]

theorem DS.merge_loop_spec (ex : String → Bool) :
    ∀ fs : List String,
      DS.merge_loop ex fs = (fs.filter ex, fs.filter (fun f => !(ex f)))
  | [] => rfl
  | f :: fs => by
    by_cases h : ex f = true
    · simp [DS.merge_loop, DS.merge_loop_spec ex fs, List.filter_cons, h]
    · have h' : ex f = false := eq_false_of_ne_true h
      simp [DS.merge_loop, DS.merge_loop_spec ex fs, List.filter_cons, h']

/-! ## TOC structure lemmas -/

/-- The numbers of the numbered TOC lines, in output order. -/
def tocNumbers (items : List TocItem) : List Nat :=
  items.filterMap (fun i => match i with
    | .entry n _ _ => some n
    | .header _ => none)

/-- The section headers of the TOC, in output order. -/
def tocHeaders (items : List TocItem) : List String :=
  items.filterMap (fun i => match i with
    | .header s => some s
    | .entry _ _ _ => none)

/-- The article titles of the numbered TOC lines, in output order. -/
def tocTitles (items : List TocItem) : List String :=
  items.filterMap (fun i => match i with
    | .entry _ t _ => some t
    | .header _ => none)

/-- Total number of TOC article lines over a declared section list. -/
def DS.tocCount (docs : List RNDoc) (ss : List String) : Nat :=
  (ss.map (fun s => (docs.filter (fun d => d.«section» == s)).length)).sum

theorem range'_split (a : Nat) :
    ∀ c b, List.range' c a ++ List.range' (c + a) b = List.range' c (a + b) := by
  induction a with
  | zero => intro c b; simp [List.range']
  | succ a ih =>
    intro c b
    have h1 : c + (a + 1) = (c + 1) + a := by omega
    have h2 : a + 1 + b = (a + b) + 1 := by omega
    rw [h2]
    show c :: List.range' (c + 1) a ++ List.range' (c + (a + 1)) b = c :: List.range' (c + 1) (a + b)
    rw [h1, List.cons_append, ih (c + 1) b]

theorem DS.numberDocs_numbers (ds : List RNDoc) :
    ∀ c, tocNumbers (DS.numberDocs c ds) = List.range' c ds.length := by
  induction ds with
  | nil => intro c; rfl
  | cons d ds ih =>
    intro c
    simp [DS.numberDocs, tocNumbers, List.range'] at *
    exact ih (c + 1)

theorem DS.numberDocs_headers (ds : List RNDoc) :
    ∀ c, tocHeaders (DS.numberDocs c ds) = [] := by
  induction ds with
  | nil => intro c; rfl
  | cons d ds ih =>
    intro c
    simp [DS.numberDocs, tocHeaders] at *
    exact ih (c + 1)

theorem DS.numberDocs_titles (ds : List RNDoc) :
    ∀ c, tocTitles (DS.numberDocs c ds) = ds.map (·.title) := by
  induction ds with
  | nil => intro c; rfl
  | cons d ds ih =>
    intro c
    simp [DS.numberDocs, tocTitles] at *
    exact ih (c + 1)

/-- Joint characterization of the TOC loop: continuous numbering from
the running counter, headers exactly the nonempty declared sections in
order, article lines grouped by section in entry order. -/
theorem DS.tocAux_spec (docs : List RNDoc) :
    ∀ (ss : List String) (c : Nat),
      tocNumbers (DS.tocAux docs ss c) = List.range' c (DS.tocCount docs ss)
      ∧ tocHeaders (DS.tocAux docs ss c) =
          ss.filter (fun s => !(docs.filter (fun d => d.«section» == s)).isEmpty)
      ∧ tocTitles (DS.tocAux docs ss c) =
          ss.flatMap (fun s => (docs.filter (fun d => d.«section» == s)).map (·.title))
  | [], c => by
    refine ⟨?_, rfl, rfl⟩
    simp [DS.tocAux, tocNumbers, DS.tocCount, List.range']
  | s :: rest, c => by
    have ih := DS.tocAux_spec docs rest
    by_cases hds : (docs.filter (fun d => d.«section» == s)).isEmpty = true
    · have hlen : (docs.filter (fun d => d.«section» == s)).length = 0 := by
        rw [List.isEmpty_iff] at hds
        simp [hds]
      have hnil : (docs.filter (fun d => d.«section» == s)) = [] :=
        List.isEmpty_iff.mp hds
      have haux : DS.tocAux docs (s :: rest) c = DS.tocAux docs rest c := by
        show (if (docs.filter (fun d => d.«section» == s)).isEmpty then _ else _) = _
        rw [if_pos hds]
      refine ⟨?_, ?_, ?_⟩
      · rw [haux, (ih c).1]
        simp [DS.tocCount, hlen]
      · rw [haux, (ih c).2.1]
        simp [List.filter_cons, hds]
      · rw [haux, (ih c).2.2]
        simp [hnil]
    · have hds' : (docs.filter (fun d => d.«section» == s)).isEmpty = false :=
        eq_false_of_ne_true hds
      have haux : DS.tocAux docs (s :: rest) c =
          .header s :: (DS.numberDocs c (docs.filter (fun d => d.«section» == s)) ++
            DS.tocAux docs rest (c + (docs.filter (fun d => d.«section» == s)).length)) := by
        show (if (docs.filter (fun d => d.«section» == s)).isEmpty then _ else _) = _
        rw [if_neg (by rw [hds']; exact Bool.false_ne_true)]
      refine ⟨?_, ?_, ?_⟩
      · rw [haux]
        show tocNumbers (TocItem.header s :: _) = _
        simp only [tocNumbers, List.filterMap_cons, List.filterMap_append]
        rw [show (List.filterMap _ (DS.numberDocs c (docs.filter (fun d => d.«section» == s))))
          = tocNumbers (DS.numberDocs c (docs.filter (fun d => d.«section» == s))) from rfl]
        rw [DS.numberDocs_numbers]
        rw [show (List.filterMap _ (DS.tocAux docs rest
          (c + (docs.filter (fun d => d.«section» == s)).length)))
          = tocNumbers (DS.tocAux docs rest
            (c + (docs.filter (fun d => d.«section» == s)).length)) from rfl]
        rw [(ih (c + (docs.filter (fun d => d.«section» == s)).length)).1]
        rw [range'_split]
        simp [DS.tocCount]
      · rw [haux]
        simp only [tocHeaders, List.filterMap_cons, List.filterMap_append]
        rw [show (List.filterMap _ (DS.numberDocs c (docs.filter (fun d => d.«section» == s))))
          = tocHeaders (DS.numberDocs c (docs.filter (fun d => d.«section» == s))) from rfl]
        rw [DS.numberDocs_headers]
        rw [show (List.filterMap _ (DS.tocAux docs rest
          (c + (docs.filter (fun d => d.«section» == s)).length)))
          = tocHeaders (DS.tocAux docs rest
            (c + (docs.filter (fun d => d.«section» == s)).length)) from rfl]
        rw [(ih (c + (docs.filter (fun d => d.«section» == s)).length)).2.1]
        simp [List.filter_cons, hds']
      · rw [haux]
        simp only [tocTitles, List.filterMap_cons, List.filterMap_append]
        rw [show (List.filterMap _ (DS.numberDocs c (docs.filter (fun d => d.«section» == s))))
          = tocTitles (DS.numberDocs c (docs.filter (fun d => d.«section» == s))) from rfl]
        rw [DS.numberDocs_titles]
        rw [show (List.filterMap _ (DS.tocAux docs rest
          (c + (docs.filter (fun d => d.«section» == s)).length)))
          = tocTitles (DS.tocAux docs rest
            (c + (docs.filter (fun d => d.«section» == s)).length)) from rfl]
        rw [(ih (c + (docs.filter (fun d => d.«section» == s)).length)).2.2]
        simp

/-! ## Handler registry (site_handlers/__init__.py) -/

/-- Immutable per-adapter configuration a constructed handler carries
(`base_url`, `docs_url`, `site_name` set in `__init__`). -/
structure SiteHandlerClass where
  base_url : String
  docs_url : String
  site_name : String
deriving DecidableEq, Repr

/-- The constructed `ReactNativeHandler`, fields from its `__init__`. -/
def reactNativeHandler : SiteHandlerClass :=
  { base_url := rnBaseUrl
    docs_url := "https://reactnative.dev/docs/getting-started"
    site_name := "React Native" }

/-- Modelled from the spec: the `nextjs` handler module is imported and
registered by `src/site_handlers/__init__.py`, but the module file itself
is not under `src/`; per the spec every Site Adapter supplies immutable
site config (base URL, documentation entry URL, human site name), so the
constructed handler is modelled as such a configuration value. -/
def nextJSHandler : SiteHandlerClass :=
  { base_url := "https://nextjs.org"
    docs_url := "https://nextjs.org/docs"
    site_name := "Next.js" }

/-- The static registry `SITE_HANDLERS`. -/
def SITE_HANDLERS : List (String × SiteHandlerClass) :=
  [("react-native", reactNativeHandler), ("nextjs", nextJSHandler)]

/-- Name normalization done by `get_handler`:
`site_name.lower().replace("_", "-")`. -/
def normalizeSiteName (s : String) : String :=
  ⟨s.data.map (fun c => if c.toLower = '_' then '-' else c.toLower)⟩

/-- Models `get_handler`: registry lookup after normalization, raising
`ValueError` (here an error value) for unknown names. -/
def get_handler (site_name : String) : Except String SiteHandlerClass :=
  match SITE_HANDLERS.find? (fun p => p.1 == normalizeSiteName site_name) with
  | some p => .ok p.2
  | none => .error ("Unknown site. Available sites: " ++
      String.intercalate ", " (SITE_HANDLERS.map (·.1)))

/-- Models `list_available_sites`: the registry keys. -/
def list_available_sites : List String := SITE_HANDLERS.map (·.1)

theorem filter_length_split {α : Type} (p : α → Bool) :
    ∀ l : List α, (l.filter p).length + (l.filter (fun x => !(p x))).length = l.length := by
  intro l
  induction l with
  | nil => rfl
  | cons x xs ih =>
    by_cases h : p x = true
    · simp [List.filter_cons, h, ih]
      omega
    · have h' : p x = false := eq_false_of_ne_true h
      simp [List.filter_cons, h', ih]
      omega

/-! ## Concrete inputs used by the claim theorems -/

/-- Two sections each declaring the same relative link. -/
def dupSectionsTree : List NavSection :=
  [⟨"S1", [⟨some "/docs/x", "X"⟩]⟩, ⟨"S2", [⟨some "/docs/x", "X"⟩]⟩]

/-- One section declaring the same relative link twice. -/
def dupLinksTree : List NavSection :=
  [⟨"S", [⟨some "/docs/x", "X"⟩, ⟨some "/docs/x", "X"⟩]⟩]

/-- One section with one well-formed link. -/
def singleTree : List NavSection :=
  [⟨"Basics", [⟨some "/docs/getting-started", "Getting Started"⟩]⟩]

/-- Three sections, all candidate URLs distinct. -/
def distinctTree : List NavSection :=
  [⟨"Basics", [⟨some "/docs/getting-started", "Getting Started"⟩,
               ⟨some "/docs/intro", "Intro"⟩]⟩,
   ⟨"Guides", [⟨some "/docs/navigation", "Navigation"⟩]⟩]

/-- One link whose path yields a slug with a repeated underscore. -/
def doubleUnderscoreTree : List NavSection :=
  [⟨"S", [⟨some "/docs/a %b", "T"⟩]⟩]

/-- The all-steps-succeed render oracle. -/
def okAll : String → Bool := fun _ => true

/-- A concrete discovered entry. -/
def sampleDoc : RNDoc :=
  { title := "Getting Started"
    url := "https://reactnative.dev/docs/getting-started"
    «section» := "Basics"
    pdf_filename := "000_getting-started.pdf"
    index := 0 }

/-- Entries for the three-section TOC example: A has two, C has one. -/
def exampleTocDocs : List RNDoc :=
  [{ title := "A1", url := "https://reactnative.dev/docs/a1", «section» := "A",
     pdf_filename := "000_a1.pdf", index := 0 },
   { title := "A2", url := "https://reactnative.dev/docs/a2", «section» := "A",
     pdf_filename := "001_a2.pdf", index := 1 },
   { title := "C1", url := "https://reactnative.dev/docs/c1", «section» := "C",
     pdf_filename := "002_c1.pdf", index := 2 }]

/-! ## Claim theorems -/

/-- C1: the claim says a leaf link whose resolved URL equals the URL of
an earlier-processed link is skipped, so no two entries share a url; the
code instead probes the raw href against a set of resolved URLs, so the
same relative link in two sections survives twice with identical urls. -/
theorem C1_dedup_bug_eval :
    (RN.get_all_doc_urls true dupSectionsTree).doc_metadata.map (·.url) =
      ["https://reactnative.dev/docs/x", "https://reactnative.dev/docs/x"]
    ∧ ¬ ((RN.get_all_doc_urls true dupSectionsTree).doc_metadata.map (·.url)).Nodup := by
  constructor
  · decide
  · decide

/-- C2 counterexample: with one relative link declared twice, both
surviving entries carry embedded index 0, so the indices are not the
dense 0..N-1 sequence the claim asserts for every tree. -/
theorem C2_counterexample :
    ¬ ((RN.get_all_doc_urls true dupLinksTree).doc_metadata.map (·.index) =
      List.range (RN.get_all_doc_urls true dupLinksTree).doc_metadata.length) := by
  decide

/-- C2 (amended): on any tree whose candidate resolved URLs are pairwise
distinct, the embedded indices are exactly 0..N-1 in append order, and
re-running discovery on an equal tree yields an identical URL list. -/
theorem C2_dense_indices (tree : List NavSection) (h : (candUrls tree).Nodup) :
    (RN.get_all_doc_urls true tree).doc_metadata.map (·.index) =
      List.range (RN.get_all_doc_urls true tree).doc_metadata.length
    ∧ ∀ tree', tree' = tree →
      (RN.get_all_doc_urls true tree').doc_metadata.map (·.url) =
        (RN.get_all_doc_urls true tree).doc_metadata.map (·.url) := by
  constructor
  · rw [RN.discover_eq_generic tree h]
    show (buildRN 0 (candTriples tree)).map (·.index) =
      List.range (buildRN 0 (candTriples tree)).length
    rw [buildRN_map_index, buildRN_length, List.range_eq_range']
  · intro tree' ht
    rw [ht]

/-- Witness for C2 at a concrete three-section tree. -/
theorem C2_witness :
    (candUrls distinctTree).Nodup
    ∧ ((RN.get_all_doc_urls true distinctTree).doc_metadata.map (·.index) =
        List.range (RN.get_all_doc_urls true distinctTree).doc_metadata.length
      ∧ ∀ tree', tree' = distinctTree →
        (RN.get_all_doc_urls true tree').doc_metadata.map (·.url) =
          (RN.get_all_doc_urls true distinctTree).doc_metadata.map (·.url)) :=
  ⟨by decide, C2_dense_indices distinctTree (by decide)⟩

/-- Strict lexicographic character order, the order a sorted directory
listing uses for these ASCII filenames. -/
def lexLt : List Char → List Char → Bool
  | [], [] => false
  | [], _ :: _ => true
  | _ :: _, [] => false
  | a :: as, b :: bs => if a < b then true else if a = b then lexLt as bs else false

/-- Lexicographic filename comparison on the underlying characters. -/
def fileLt (a b : String) : Bool := lexLt a.data b.data

/-- C3 counterexample: entry filenames embed the zero-based index, not
index+1, so the first entry is 000-prefixed and sorts lexicographically
before the reserved TOC filename, contradicting the claimed 001..N
naming and the claimed TOC-first lexicographic order. -/
theorem C3_counterexample :
    (RN.get_all_doc_urls true singleTree).doc_metadata.map (·.pdf_filename) =
      ["000_getting-started.pdf"]
    ∧ "000_getting-started.pdf" ≠ "001_getting-started.pdf"
    ∧ fileLt "000_table_of_contents.pdf" "000_getting-started.pdf" = false
    ∧ fileLt "000_getting-started.pdf" "000_table_of_contents.pdf" = true := by
  refine ⟨by decide, by decide, by decide, by decide⟩

/-- C3 (amended): after discovery over distinct candidate URLs and TOC
creation, the merge list is the TOC pseudo-entry (reserved file
000_table_of_contents.pdf) followed by the entries in discovery order,
and every entry file is named from its zero-based sequence index
(pad3 of index, not index+1) and its url slug. -/
theorem C3_filenames (tree : List NavSection) (files : List String)
    (h : (candUrls tree).Nodup) :
    (DS.create_toc_pdf true (RN.get_all_doc_urls true tree).doc_metadata files).1 =
      DS.tocEntry :: (RN.get_all_doc_urls true tree).doc_metadata
    ∧ DS.tocEntry.pdf_filename = "000_table_of_contents.pdf"
    ∧ (RN.get_all_doc_urls true tree).doc_metadata.map (·.index) =
        List.range (RN.get_all_doc_urls true tree).doc_metadata.length
    ∧ ∀ e ∈ (RN.get_all_doc_urls true tree).doc_metadata,
        e.pdf_filename = pad3 e.index ++ "_" ++ rnSlug e.url ++ ".pdf" := by
  refine ⟨rfl, rfl, ?_, ?_⟩
  · rw [RN.discover_eq_generic tree h]
    show (buildRN 0 (candTriples tree)).map (·.index) =
      List.range (buildRN 0 (candTriples tree)).length
    rw [buildRN_map_index, buildRN_length, List.range_eq_range']
  · rw [RN.discover_eq_generic tree h]
    exact buildRN_pdf_spec (candTriples tree) 0

/-- Witness for C3 at a concrete tree. -/
theorem C3_witness :
    (candUrls singleTree).Nodup
    ∧ ((DS.create_toc_pdf true (RN.get_all_doc_urls true singleTree).doc_metadata []).1 =
        DS.tocEntry :: (RN.get_all_doc_urls true singleTree).doc_metadata
      ∧ DS.tocEntry.pdf_filename = "000_table_of_contents.pdf"
      ∧ (RN.get_all_doc_urls true singleTree).doc_metadata.map (·.index) =
          List.range (RN.get_all_doc_urls true singleTree).doc_metadata.length
      ∧ ∀ e ∈ (RN.get_all_doc_urls true singleTree).doc_metadata,
          e.pdf_filename = pad3 e.index ++ "_" ++ rnSlug e.url ++ ".pdf") :=
  ⟨by decide, C3_filenames singleTree [] (by decide)⟩

/-- C4: with cache mode active, an entry whose target file exists
short-circuits as success with no browser event; hence after a first
cached pass in which every attempted render succeeds, a second cached
pass over the same entries performs zero navigations, reports all
entries successful, and leaves the file set unchanged. -/
theorem C4_cached_idempotent (ok : String → Bool) (docs : List RNDoc)
    (files0 : List String) (h : ∀ d ∈ docs, ok d.url = true) :
    (∀ (files : List String) (doc : RNDoc), files.contains doc.pdf_filename = true →
      DS.save_page_as_pdf true ok files doc = ⟨true, files, []⟩)
    ∧ DS.scrape_loop true ok docs (DS.scrape_loop true ok docs files0).files =
        ⟨docs.length, 0, (DS.scrape_loop true ok docs files0).files, []⟩ := by
  refine ⟨fun files doc hc => DS.save_cache_hit ok files doc hc, ?_⟩
  exact DS.loop_all_cached ok docs _
    (fun d hd => DS.loop_files_cover true ok docs files0 h d hd)

/-- Witness for C4 at a concrete entry list. -/
theorem C4_witness :
    (∀ d ∈ [sampleDoc], okAll d.url = true)
    ∧ ((∀ (files : List String) (doc : RNDoc), files.contains doc.pdf_filename = true →
        DS.save_page_as_pdf true okAll files doc = ⟨true, files, []⟩)
      ∧ DS.scrape_loop true okAll [sampleDoc]
          (DS.scrape_loop true okAll [sampleDoc] []).files =
          ⟨[sampleDoc].length, 0, (DS.scrape_loop true okAll [sampleDoc] []).files, []⟩) :=
  ⟨by decide, C4_cached_idempotent okAll [sampleDoc] [] (by decide)⟩

/-- C5: the synthesized TOC lists the declared sections in order keeping
only those with entries, numbers all article lines with one counter
running from 1 across section boundaries, lists each section's articles
in entry order, and on the A(2)/B(0)/C(1) example produces numbers
1,2,3 under headers A and C only. -/
theorem C5_toc_numbering (sections : List String) (docs : List RNDoc) :
    tocHeaders (DS.create_table_of_contents sections docs) =
      sections.filter (fun s => !(docs.filter (fun d => d.«section» == s)).isEmpty)
    ∧ tocNumbers (DS.create_table_of_contents sections docs) =
        List.range' 1 (DS.tocCount docs sections)
    ∧ tocTitles (DS.create_table_of_contents sections docs) =
        sections.flatMap (fun s => (docs.filter (fun d => d.«section» == s)).map (·.title))
    ∧ tocNumbers (DS.create_table_of_contents ["A", "B", "C"] exampleTocDocs) = [1, 2, 3]
    ∧ tocHeaders (DS.create_table_of_contents ["A", "B", "C"] exampleTocDocs) = ["A", "C"] := by
  have hs := DS.tocAux_spec docs sections 1
  exact ⟨hs.2.1, hs.1, hs.2.2, by decide, by decide⟩

/-- C6: the merge appends exactly the entries whose rendered file
exists, in list order; every missing file is warned about and skipped;
the result is a failure exactly when the merge library cannot write the
output, and otherwise the output path; the merge input is the TOC entry
followed by the entries in discovery order. -/
theorem C6_merge_best_effort (filenames : List String) (ex : String → Bool)
    (writeOk : Bool) (docs : List RNDoc) (files : List String) :
    (DS.merge_pdfs filenames ex writeOk).appended = filenames.filter ex
    ∧ (DS.merge_pdfs filenames ex writeOk).warnings =
        filenames.filter (fun f => !(ex f))
    ∧ ((DS.merge_pdfs filenames ex writeOk).result = none ↔ writeOk = false)
    ∧ (writeOk = true →
        (DS.merge_pdfs filenames ex writeOk).result = some DS.merged_pdf_name)
    ∧ (DS.create_toc_pdf true docs files).1 = DS.tocEntry :: docs := by
  refine ⟨?_, ?_, ?_, ?_, rfl⟩
  · show (DS.merge_loop ex filenames).1 = _
    rw [DS.merge_loop_spec]
  · show (DS.merge_loop ex filenames).2 = _
    rw [DS.merge_loop_spec]
  · cases writeOk with
    | false => simp [DS.merge_pdfs]
    | true => simp [DS.merge_pdfs]
  · intro hw
    simp [DS.merge_pdfs, hw]

/-- C7: when the sidebar never appears within the bounded wait,
discovery returns no entries and sets no sections, and the orchestrator
returns before any navigation, TOC creation or merge: the run report is
empty, with no events and no merged output. -/
theorem C7_sidebar_abort (tree : List NavSection) (cached tocOk writeOk : Bool)
    (ok : String → Bool) :
    (RN.get_all_doc_urls false tree).doc_metadata = []
    ∧ DS.scrape_all_docs false cached tocOk writeOk ok tree =
        { doc_metadata := [], successful := 0, failed := 0, events := [], merged := none } := by
  constructor
  · rfl
  · rfl

/-- C8: in an uncached render pass every entry is attempted in order
(one navigation each), a failing entry is logged with its URL and
counted as exactly one failure while the loop continues, and the final
counters are exactly the number of succeeding and failing entries. -/
theorem C8_entry_isolation (ok : String → Bool) (docs : List RNDoc) :
    (DS.scrape_loop false ok docs []).successful =
      (docs.filter (fun d => ok d.url)).length
    ∧ (DS.scrape_loop false ok docs []).failed =
        (docs.filter (fun d => !(ok d.url))).length
    ∧ (DS.scrape_loop false ok docs []).successful +
        (DS.scrape_loop false ok docs []).failed = docs.length
    ∧ (DS.scrape_loop false ok docs []).events = docs.flatMap (fun d =>
        if ok d.url then [RunEvent.goto d.url, RunEvent.saved d.pdf_filename]
        else [RunEvent.goto d.url, RunEvent.errorLog d.url]) := by
  have hs := DS.loop_uncached_spec ok docs []
  rw [hs]
  exact ⟨rfl, rfl, filter_length_split _ docs, rfl⟩

/-- C9 counterexample: on a link whose slug contains a repeated
underscore the generic pipeline collapses the run while the legacy
script keeps it, so the two implementations produce different pdf
filenames for the same entry. -/
theorem C9_counterexample :
    (RN.get_all_doc_urls true doubleUnderscoreTree).doc_metadata.map (·.pdf_filename) =
      ["000_a_b.pdf"]
    ∧ (PW.get_all_doc_urls true doubleUnderscoreTree).doc_metadata.map (·.pdf_filename) =
        ["000_a__b.pdf"]
    ∧ ¬ ((RN.get_all_doc_urls true doubleUnderscoreTree).doc_metadata.map (·.pdf_filename) =
        (PW.get_all_doc_urls true doubleUnderscoreTree).doc_metadata.map (·.pdf_filename)) := by
  refine ⟨by decide, by decide, by decide⟩

/-- C9 (amended): on distinct candidate URLs both implementations assign
the same index to every entry; the pdf filenames additionally coincide
whenever no entry slug contains a repeated underscore (the only
difference being the generic pipeline's extra collapsing step). -/
theorem C9_index_equivalence (tree : List NavSection) (h : (candUrls tree).Nodup) :
    (RN.get_all_doc_urls true tree).doc_metadata.map (·.index) =
      (PW.get_all_doc_urls true tree).doc_metadata.map (·.index)
    ∧ ((∀ u ∈ candUrls tree, hasDoubleUnderscore (pwSlug u).data = false) →
      (RN.get_all_doc_urls true tree).doc_metadata.map (·.pdf_filename) =
        (PW.get_all_doc_urls true tree).doc_metadata.map (·.pdf_filename)) := by
  rw [RN.discover_eq_generic tree h, PW.discover_eq_legacy tree h]
  constructor
  · show (buildRN 0 (candTriples tree)).map (·.index) =
      (buildPW 0 (candTriples tree)).map (·.index)
    rw [buildRN_map_index, buildPW_map_index]
  · intro hdd
    apply build_pdf_maps_eq
    intro t ht
    exact hdd t.1 (List.mem_map_of_mem (·.1) ht)

/-- Witness for C9 at a concrete three-section tree. -/
theorem C9_witness :
    (candUrls distinctTree).Nodup
    ∧ (∀ u ∈ candUrls distinctTree, hasDoubleUnderscore (pwSlug u).data = false)
    ∧ (RN.get_all_doc_urls true distinctTree).doc_metadata.map (·.index) =
        (PW.get_all_doc_urls true distinctTree).doc_metadata.map (·.index)
    ∧ (RN.get_all_doc_urls true distinctTree).doc_metadata.map (·.pdf_filename) =
        (PW.get_all_doc_urls true distinctTree).doc_metadata.map (·.pdf_filename) :=
  ⟨by decide, by decide,
   (C9_index_equivalence distinctTree (by decide)).1,
   (C9_index_equivalence distinctTree (by decide)).2 (by decide)⟩

/-- C10: every name listed by the registry resolves through get_handler
to a constructed handler value; in particular react-native and nextjs
both resolve. -/
theorem C10_registry_consistency :
    list_available_sites = ["react-native", "nextjs"]
    ∧ get_handler "react-native" = .ok reactNativeHandler
    ∧ get_handler "nextjs" = .ok nextJSHandler := by
  refine ⟨rfl, rfl, rfl⟩
